import Mathlib

/-!
Verification development for the Cardano pooling simulator
(`logic/stakeholder.py` and `logic/sim.py`).

Stake, utility, cost and reward quantities are embedded as rationals (`ℚ`).
Python dictionaries keyed by integer ids are embedded as association lists
`List (Nat × α)`; insertion order matters for Python's `max` tie-breaking, and
the embedding preserves it.

The repository modules `logic/pool.py`, `logic/strategy.py` and
`logic/helper.py` are not available; where a claim depends on them their
behaviour is modelled from the spec (each such definition carries a
`Modelled from the spec:` comment), and purely numeric formulas that no claim
depends on (reward, desirability, potential profit) are kept abstract as
function parameters.
-/

namespace PoolSim

/-- Stake / utility values are embedded as rationals. -/
abbrev Val := ℚ

/-- A stake pool, following the data model of the spec (§3 "Pool") and the
field accesses in `logic/stakeholder.py` (`pool.py` itself is not under
`src/`): id, owner agent id, cost, pledge, margin, total stake, privacy flag
and the delegator map (delegator agent id → delegated amount). -/
structure Pool where
  id : Nat
  owner : Nat
  cost : Val
  pledge : Val
  margin : Val
  stake : Val
  is_private : Bool
  delegators : List (Nat × Val)
deriving Repr, DecidableEq

/-- Modelled from the spec: `Pool.update_delegation(Δstake, delegator_id)`
(spec §4.2, `pool.py` is not under `src/`) "mutates the pool's stake and the
delegator's entry, removing the entry if it reaches zero".  The spec's failure
condition (delegator stake going negative) is not reached by any claim
considered here, so the operation is embedded as a total function. -/
def Pool.update_delegation (p : Pool) (Δ : Val) (delegator_id : Nat) : Pool :=
  let old := (p.delegators.lookup delegator_id).getD 0
  let amt := old + Δ
  { p with
    stake := p.stake + Δ
    delegators :=
      if amt = 0 then p.delegators.filter (fun e => e.1 ≠ delegator_id)
      else if (p.delegators.lookup delegator_id).isSome then
        p.delegators.map (fun e => if e.1 = delegator_id then (e.1, amt) else e)
      else p.delegators ++ [(delegator_id, amt)] }

/-- An agent strategy, following `logic/strategy.py`'s constructor as used from
`logic/stakeholder.py` (lines 385-386 and 438): the fields a claim touches are
the role flag, the stake-allocation map (pool id → amount) and the owned-pool
map (pool id → Pool). -/
structure Strategy where
  is_pool_operator : Bool
  stake_allocations : List (Nat × Val)
  owned_pools : List (Nat × Pool)
deriving Repr, DecidableEq

/-! ### `Stakeholder.has_potential_for_pool` (stakeholder.py lines 172-202)

The numeric inputs `potential_profit` (computed by the missing
`helper.calculate_potential_profit`) and the pools' desirabilities (computed by
the missing `pool.calculate_desirability`) are taken as arguments; the claim is
about the branching logic, which lives in `src/logic/stakeholder.py`. -/

/-- `Stakeholder.has_potential_for_pool` (stakeholder.py lines 187-202):
if `len(current_pools) * saturation_point < total_stake` return
`potential_profit > 0`; otherwise return `potential_profit > 0 and
any(desirability < potential_profit)`.  `desirabilities` carries one entry per
current pool, so its length is the number of current pools. -/
def has_potential_for_pool (beta total_stake potential_profit : Val)
    (desirabilities : List Val) : Bool :=
  if (desirabilities.length : Val) * beta < total_stake then
    decide (potential_profit > 0)
  else
    decide (potential_profit > 0) && desirabilities.any (fun d => decide (d < potential_profit))

/-! ### `Stakeholder.update_strategy` decision logic (stakeholder.py lines 57-98)

The decision step is embedded parametrically in the utilities of the three
branches: `current_utility` is `calculate_utility(self.strategy)`,
`delegator_utility` the utility of `find_delegation_move_desirability()`'s
result, and `operator_options` the list of `(utility, strategy)` pairs obtained
from `find_operator_moves().values()` in iteration order.  The dict
`possible_moves` is embedded as a list in insertion order
(current, delegator, operator), and Python's `max(keys, key=...)` as a fold
that replaces the current best only on a strictly greater value, which selects
the first key attaining the maximum. -/

/-- The three keys of the `possible_moves` dict (stakeholder.py lines 64-84). -/
inductive MoveKey
  | current
  | delegator
  | operator_move
deriving Repr, DecidableEq, Inhabited

/-- Inputs of one `update_strategy` call: the thresholds come from the model,
`cooldown_is_zero` is `remaining_min_steps_to_keep_pool == 0` (line 68),
`considers_operator` is `self.strategy.is_pool_operator or
self.has_potential_for_pool()` (line 73), and `operator_options` lists the
utilities and strategies of `find_operator_moves()` in iteration order. -/
structure DecideCtx where
  relative_utility_threshold : Val
  absolute_utility_threshold : Val
  current_utility : Val
  current_strategy : Strategy
  cooldown_is_zero : Bool
  delegator_utility : Val
  delegator_strategy : Strategy
  considers_operator : Bool
  operator_options : List (Val × Strategy)

/-- `current_utility_with_inertia` (stakeholder.py lines 59-62):
`max((1 + relative_utility_threshold) * current_utility,
current_utility + absolute_utility_threshold)`. -/
def DecideCtx.inflated (c : DecideCtx) : Val :=
  max ((1 + c.relative_utility_threshold) * c.current_utility)
      (c.current_utility + c.absolute_utility_threshold)

/-- The operator-branch maximum (stakeholder.py lines 77-83): starts from
`(0, None)` and replaces only on a strictly greater utility. -/
def max_operator_move (opts : List (Val × Strategy)) : Val × Option Strategy :=
  opts.foldl (fun acc o => if o.1 > acc.1 then (o.1, some o.2) else acc) (0, none)

/-- The `possible_moves` dict (stakeholder.py lines 64-84) in insertion order;
each entry is (key, utility, staged strategy).  The strategy stored for the
operator key can be `none` (line 78) when no option beat utility 0. -/
def DecideCtx.possible_moves (c : DecideCtx) : List (MoveKey × Val × Option Strategy) :=
  (MoveKey.current, c.inflated, some c.current_strategy) ::
  ((if c.cooldown_is_zero then
      [(MoveKey.delegator, c.delegator_utility, some c.delegator_strategy)] else [])
   ++ (if c.considers_operator then
      [(MoveKey.operator_move, (max_operator_move c.operator_options).1,
        (max_operator_move c.operator_options).2)] else []))

/-- Python's `max(possible_moves, key=lambda key: possible_moves[key][0])`
(stakeholder.py lines 89-90): iterates in insertion order and replaces the
running best only on a strictly greater value, hence returns the first entry
attaining the maximum. -/
def pyMaxByVal (x : MoveKey × Val × Option Strategy)
    (xs : List (MoveKey × Val × Option Strategy)) : MoveKey × Val × Option Strategy :=
  xs.foldl (fun acc y => if y.2.1 > acc.2.1 then y else acc) x

/-- The decision of `update_strategy` (stakeholder.py lines 89-98): the chosen
key, and the staged `new_strategy` — `None` if the chosen key is `"current"`,
otherwise the chosen entry's strategy (line 98). -/
def chosen_move (c : DecideCtx) : MoveKey × Val × Option Strategy :=
  pyMaxByVal ((c.possible_moves).headI) ((c.possible_moves).tail)

def update_strategy_choice (c : DecideCtx) : MoveKey × Option Strategy :=
  ((chosen_move c).1,
   if (chosen_move c).1 = MoveKey.current then none else (chosen_move c).2.2)

/-! Helper lemmas about the first-max fold. -/

/-- The fold either keeps its seed or returns a later element strictly greater
than the seed's value. -/
theorem pyMaxByVal_eq_or_gt (x : MoveKey × Val × Option Strategy)
    (xs : List (MoveKey × Val × Option Strategy)) :
    pyMaxByVal x xs = x ∨ (pyMaxByVal x xs ∈ xs ∧ x.2.1 < (pyMaxByVal x xs).2.1) := by
  induction xs generalizing x with
  | nil => left; rfl
  | cons y ys ih =>
    unfold pyMaxByVal at *
    simp only [List.foldl_cons]
    by_cases h : y.2.1 > x.2.1
    · simp only [if_pos h]
      rcases ih y with h1 | ⟨h2, h3⟩
      · right
        exact ⟨by simp [h1], by rw [h1]; exact h⟩
      · right
        exact ⟨by simp [h2], lt_trans h h3⟩
    · simp only [if_neg h]
      rcases ih x with h1 | ⟨h2, h3⟩
      · left; exact h1
      · right; exact ⟨by simp [h2], h3⟩

/-- If every later element has value at most the seed's, the fold keeps the
seed. -/
theorem pyMaxByVal_eq_of_le (x : MoveKey × Val × Option Strategy)
    (xs : List (MoveKey × Val × Option Strategy))
    (h : ∀ y ∈ xs, y.2.1 ≤ x.2.1) :
    pyMaxByVal x xs = x := by
  rcases pyMaxByVal_eq_or_gt x xs with h1 | ⟨h2, h3⟩
  · exact h1
  · exact absurd h3 (not_lt.mpr (h _ h2))

/-- The utility value that `possible_moves` stores under each key
(stakeholder.py lines 64, 71, 84); for `"current"` this is the inertia-inflated
baseline. -/
def DecideCtx.branch_value (c : DecideCtx) : MoveKey → Val
  | MoveKey.current => c.inflated
  | MoveKey.delegator => c.delegator_utility
  | MoveKey.operator_move => (max_operator_move c.operator_options).1

/-- Any element of the tail of `possible_moves` is the delegator entry or the
operator entry. -/
theorem mem_possible_moves_tail (c : DecideCtx) (y : MoveKey × Val × Option Strategy)
    (hy : y ∈ (c.possible_moves).tail) :
    y = (MoveKey.delegator, c.delegator_utility, some c.delegator_strategy) ∨
    y = (MoveKey.operator_move, (max_operator_move c.operator_options).1,
         (max_operator_move c.operator_options).2) := by
  simp only [DecideCtx.possible_moves, List.tail_cons] at hy
  rcases List.mem_append.mp hy with h | h <;> split_ifs at h <;> simp_all

/-- If the staged strategy is non-null, the chosen branch is not the current
one and its stored utility strictly exceeds the inflated baseline. -/
theorem choice_some_strict_improvement (c : DecideCtx)
    (h : ((update_strategy_choice c).2).isSome = true) :
    (update_strategy_choice c).1 ≠ MoveKey.current ∧
      c.inflated < c.branch_value (update_strategy_choice c).1 := by
  unfold update_strategy_choice chosen_move at h ⊢
  rcases pyMaxByVal_eq_or_gt (c.possible_moves).headI (c.possible_moves).tail
    with heq | ⟨hmem, hgt⟩
  · rw [heq] at h
    simp [DecideCtx.possible_moves] at h
  · rcases mem_possible_moves_tail c _ hmem with hdel | hope
    · rw [hdel] at hgt ⊢
      simp only [DecideCtx.possible_moves, List.headI] at hgt
      exact ⟨by simp, by simpa [DecideCtx.branch_value] using hgt⟩
    · rw [hope] at hgt ⊢
      simp only [DecideCtx.possible_moves, List.headI] at hgt
      exact ⟨by simp, by simpa [DecideCtx.branch_value] using hgt⟩

/-- If no present alternative strictly beats the inflated baseline, the choice
is the current branch and no strategy is staged. -/
theorem choice_none_of_no_improvement (c : DecideCtx)
    (hd : c.cooldown_is_zero = true → c.delegator_utility ≤ c.inflated)
    (ho : c.considers_operator = true →
       (max_operator_move c.operator_options).1 ≤ c.inflated) :
    update_strategy_choice c = (MoveKey.current, none) := by
  have hle : ∀ y ∈ (c.possible_moves).tail, y.2.1 ≤ ((c.possible_moves).headI).2.1 := by
    intro y hy
    rcases mem_possible_moves_tail c y hy with h | h <;>
      simp only [DecideCtx.possible_moves, List.tail_cons] at hy <;>
      rcases List.mem_append.mp hy with h2 | h2 <;> split_ifs at h2 with hc <;>
      simp_all [DecideCtx.possible_moves]
  unfold update_strategy_choice chosen_move
  rw [pyMaxByVal_eq_of_le _ _ hle]
  simp [DecideCtx.possible_moves]

/-- On a delegator/operator utility tie strictly above the baseline, the
delegator branch (listed earlier) is chosen. -/
theorem choice_tie_prefers_delegator (c : DecideCtx)
    (hcool : c.cooldown_is_zero = true) (hop : c.considers_operator = true)
    (heq : c.delegator_utility = (max_operator_move c.operator_options).1)
    (hlt : c.inflated < c.delegator_utility) :
    (update_strategy_choice c).1 = MoveKey.delegator := by
  have h2 : ¬ (c.delegator_utility < (max_operator_move c.operator_options).1) := by
    rw [← heq]
    exact lt_irrefl _
  unfold update_strategy_choice chosen_move DecideCtx.possible_moves pyMaxByVal
  simp [hcool, hop, hlt, h2]

/-- C1: `update_strategy` stages a non-current alternative (`new_strategy`
non-null) only when that alternative's utility strictly exceeds the inflated
baseline `max((1 + relative_utility_threshold) * U_current, U_current +
absolute_utility_threshold)`; when the branches tie, the earlier key in the
order current > delegator > operator is selected — in particular a tie with the
baseline stages no change, and a delegator/operator tie above the baseline
stages the delegator move. -/
theorem update_strategy_inertia_and_tie_order (c : DecideCtx) :
    (((update_strategy_choice c).2).isSome = true →
      (update_strategy_choice c).1 ≠ MoveKey.current ∧
      c.inflated < c.branch_value (update_strategy_choice c).1) ∧
    ((c.cooldown_is_zero = true → c.delegator_utility ≤ c.inflated) →
     (c.considers_operator = true →
        (max_operator_move c.operator_options).1 ≤ c.inflated) →
      update_strategy_choice c = (MoveKey.current, none)) ∧
    (c.cooldown_is_zero = true → c.considers_operator = true →
      c.delegator_utility = (max_operator_move c.operator_options).1 →
      c.inflated < c.delegator_utility →
      (update_strategy_choice c).1 = MoveKey.delegator) :=
  ⟨choice_some_strict_improvement c,
   choice_none_of_no_improvement c,
   choice_tie_prefers_delegator c⟩

/-! ### The simulation engine state (sim.py)

The claim-relevant fields of `Simulation`.  Reporting-only state
(`datacollector`, file export, the agents' scheduler object) is out of scope;
the net outcome of the agent-activation phase of a round is abstracted by a
boolean `round_idle` (the value of `current_step_idle` after
`schedule.step()`), since the claims C2, C3 and C7 quantify over it.
`adjustable_params` (sim.py lines 85-98) is split into the schedule for `k`
(the only adjustable parameter that feeds back into the modelled state, via
`beta`) and the lengths of the remaining parameters' schedules, which only
matter for the `change_occured` flag feeding `pivot_steps`. -/

structure SimState where
  total_stake : Val
  k : ℤ
  beta : Val
  perceived_active_stake : Val
  pools : List (Nat × Pool)
  steps : Nat
  max_iterations : Nat
  revision_frequency : Nat
  consecutive_idle_steps : Nat
  min_consecutive_idle_steps_for_convergence : Nat
  current_era : Nat
  total_eras : Nat
  k_schedule : List ℤ
  other_schedule_lens : List Nat
  running : Bool
  current_step_idle : Bool
  equilibrium_steps : List ℤ
  pivot_steps : List Nat
deriving Repr, DecidableEq

/-- The fragment of `Simulation.__init__` (sim.py lines 97-135) that sets the
claim-relevant fields: `beta = total_stake / k` (line 117, with `k` the value
after the optional abstention inflation of line 104), idle counters zeroed
(lines 120-121), `min_consecutive_idle_steps_for_convergence =
max(min_steps_to_keep_pool + 1, steps_for_convergence)` (line 122), an empty
pool registry (line 123) and revision frequency 10 (line 124).  `total_stake`
is the already-scaled value of line 111, produced by the excluded
initializer. -/
def Simulation.init (total_stake : Val) (k : ℤ)
    (min_steps_to_keep_pool steps_for_convergence max_iterations total_eras : Nat)
    (k_schedule : List ℤ) (other_schedule_lens : List Nat) : SimState :=
  { total_stake := total_stake
    k := k
    beta := total_stake / (k : Val)
    perceived_active_stake := total_stake
    pools := []
    steps := 0
    max_iterations := max_iterations
    revision_frequency := 10
    consecutive_idle_steps := 0
    min_consecutive_idle_steps_for_convergence :=
      max (min_steps_to_keep_pool + 1) steps_for_convergence
    current_era := 0
    total_eras := total_eras
    k_schedule := k_schedule
    other_schedule_lens := other_schedule_lens
    running := true
    current_step_idle := true
    equilibrium_steps := []
    pivot_steps := [] }

/-- Modelled from the spec: `reporters.get_active_stake_pools`
(`logic/model_reporters.py` is not under `src/`): "The value for the active
stake is calculated based on the currently delegated stake" (sim.py lines
331-334) — the stake currently held in the registered pools. -/
def SimState.active_stake_pools (s : SimState) : Val :=
  (s.pools.map (fun e => e.2.stake)).sum

/-- `Simulation.has_converged` (sim.py lines 228-233). -/
def SimState.has_converged (s : SimState) : Bool :=
  decide (s.min_consecutive_idle_steps_for_convergence ≤ s.consecutive_idle_steps)

/-- `Simulation.wrap_up_execution` (sim.py lines 355-363): stops the run; the
rest of the method is file export only. -/
def SimState.wrap_up_execution (s : SimState) : SimState :=
  { s with running := false }

/-- `Simulation.revise_beliefs` (sim.py lines 327-339): revises the perceived
active stake and recomputes `k = ceil(active_stake / beta)`.  (`math.ceil(
round(x, 12))` rounds to 12 decimal digits only to suppress binary
floating-point noise; on exact rationals it is the plain ceiling.)  Note that
`beta` is deliberately left unchanged (comment on line 338). -/
def SimState.revise_beliefs (s : SimState) : SimState :=
  { s with
    perceived_active_stake := s.active_stake_pools
    k := ⌈s.active_stake_pools / s.beta⌉ }

/-- `Simulation.adjust_params` (sim.py lines 341-353): advance the era, apply
every adjustable parameter that has a value for the new era, and when `k` is
among them recompute `beta = total_stake / k` (lines 348-351); record a pivot
step when any parameter changed. -/
def SimState.adjust_params (s : SimState) : SimState :=
  let era := s.current_era + 1
  let k_applies := era < s.k_schedule.length
  let change_occured :=
    decide k_applies || s.other_schedule_lens.any (fun l => decide (era < l))
  let k' := if h : era < s.k_schedule.length then s.k_schedule.get ⟨era, h⟩ else s.k
  { s with
    current_era := era
    k := k'
    beta := if k_applies then s.total_stake / (k' : Val) else s.beta
    pivot_steps :=
      if change_occured then s.pivot_steps ++ [s.steps] else s.pivot_steps }

/-- `Simulation.step` (sim.py lines 189-216).  `round_idle` abstracts the
agent-activation phase `self.schedule.step()` (line 204): it is the value of
`current_step_idle` after all agents moved; the scheduler also increments
`steps`.  The early returns at the iteration cap (lines 197-199) and at final
convergence (lines 212-213) skip the trailing `current_step_idle = True`
(line 216). -/
def SimState.step (s : SimState) (round_idle : Bool) : SimState :=
  if s.max_iterations ≤ s.steps then s.wrap_up_execution
  else
    let s1 := if s.steps % s.revision_frequency = 0 ∧ 0 < s.steps
              then s.revise_beliefs else s
    let s2 := { s1 with steps := s1.steps + 1, current_step_idle := round_idle }
    if round_idle then
      let s3 := { s2 with consecutive_idle_steps := s2.consecutive_idle_steps + 1 }
      if s3.has_converged then
        let s4 := { s3 with equilibrium_steps := s3.equilibrium_steps ++
          [(s.steps : ℤ) - (s3.min_consecutive_idle_steps_for_convergence : ℤ) + 1] }
        if s4.current_era < s4.total_eras - 1 then
          { s4.adjust_params with current_step_idle := true }
        else s4.wrap_up_execution
      else { s3 with current_step_idle := true }
    else { s2 with consecutive_idle_steps := 0, current_step_idle := true }

/-- C5: `has_potential_for_pool()` returns true if and only if the potential
profit is strictly positive and either `len(current_pools) * beta <
total_stake` (existing pools cannot cover the total stake without
oversaturation) or at least one existing pool's desirability is strictly lower
than the potential profit. -/
theorem has_potential_for_pool_iff (beta total_stake potential_profit : Val)
    (desirabilities : List Val) :
    has_potential_for_pool beta total_stake potential_profit desirabilities = true ↔
      (0 < potential_profit ∧
        ((desirabilities.length : Val) * beta < total_stake ∨
          ∃ d ∈ desirabilities, d < potential_profit)) := by
  unfold has_potential_for_pool
  by_cases h : (desirabilities.length : Val) * beta < total_stake
  · simp [h]
  · simp [h, List.any_eq_true]

/-- The concrete pool of the C2 counterexample state: a single pool holding
stake 1/4. -/
def c2_pool : Pool :=
  { id := 1, owner := 0, cost := 0, pledge := 1/4, margin := 0, stake := 1/4,
    is_private := false, delegators := [] }

/-- The C2 counterexample state: `total_stake = 1`, `k = 2`, `beta = 1/2`
(so `beta = total_stake / k` holds on entry), one pool of stake 1/4. -/
def c2_state : SimState :=
  { total_stake := 1, k := 2, beta := 1/2, perceived_active_stake := 1,
    pools := [(1, c2_pool)], steps := 3, max_iterations := 100,
    revision_frequency := 10, consecutive_idle_steps := 0,
    min_consecutive_idle_steps_for_convergence := 6, current_era := 0,
    total_eras := 1, k_schedule := [], other_schedule_lens := [],
    running := true, current_step_idle := true, equilibrium_steps := [],
    pivot_steps := [] }

/-- C2 counterexample: `revise_beliefs` updates `k` (here from 2 to
`ceil((1/4)/(1/2)) = 1`) but leaves `beta` unchanged at 1/2, so immediately
after this k-update `beta ≠ total_stake / k` (1/2 ≠ 1/1) — the code comment on
sim.py line 338 states that `beta` deliberately does not change here. -/
theorem revise_beliefs_breaks_beta_k_equation :
    (c2_state.revise_beliefs).k = 1 ∧
    (c2_state.revise_beliefs).beta ≠
      (c2_state.revise_beliefs).total_stake / ((c2_state.revise_beliefs).k : Val) := by
  have hk : (c2_state.revise_beliefs).k = 1 := by
    have h1 : c2_state.active_stake_pools = 1/4 := by
      simp [SimState.active_stake_pools, c2_state, c2_pool]
    have hbeta : c2_state.beta = 1/2 := rfl
    show Int.ceil (c2_state.active_stake_pools / c2_state.beta) = 1
    rw [h1, hbeta, show (1/4 : ℚ) / (1/2 : ℚ) = 1/2 by norm_num]
    rw [Int.ceil_eq_iff]
    norm_num
  refine ⟨hk, ?_⟩
  have hb : (c2_state.revise_beliefs).beta = 1/2 := rfl
  have ht : (c2_state.revise_beliefs).total_stake = 1 := rfl
  rw [hk, hb, ht]
  norm_num

/-- C2 amended: `beta = total_stake / k` holds immediately after construction
and immediately after an `adjust_params` whose new era overrides `k`;
`revise_beliefs`, by contrast, updates `k` from the perceived active stake
while leaving `beta` unchanged (sim.py line 338-339). -/
theorem beta_k_equation_at_k_updates
    (total_stake : Val) (k : ℤ) (msk sfc mi te : Nat) (ks : List ℤ)
    (os : List Nat) (s : SimState)
    (hk : s.current_era + 1 < s.k_schedule.length) :
    (Simulation.init total_stake k msk sfc mi te ks os).beta
        = (Simulation.init total_stake k msk sfc mi te ks os).total_stake
          / ((Simulation.init total_stake k msk sfc mi te ks os).k : Val) ∧
    (s.adjust_params).beta
        = (s.adjust_params).total_stake / ((s.adjust_params).k : Val) ∧
    (s.revise_beliefs).beta = s.beta := by
  refine ⟨rfl, ?_, rfl⟩
  simp [SimState.adjust_params, hk]

/-- C7: the convergence threshold is `max(min_steps_to_keep_pool + 1,
steps_for_convergence)` — hence at least one more than the pool-opening
cooldown; the idle counter increments by one on each idle round and resets to
zero on each non-idle round; `has_converged()` holds exactly when the counter
has reached the threshold. -/
theorem convergence_threshold_and_idle_counter
    (total_stake : Val) (k : ℤ) (msk sfc mi te : Nat) (ks : List ℤ)
    (os : List Nat) (s : SimState) (hcap : s.steps < s.max_iterations) :
    (Simulation.init total_stake k msk sfc mi te ks
        os).min_consecutive_idle_steps_for_convergence = max (msk + 1) sfc ∧
    msk + 1 ≤ (Simulation.init total_stake k msk sfc mi te ks
        os).min_consecutive_idle_steps_for_convergence ∧
    (s.step true).consecutive_idle_steps = s.consecutive_idle_steps + 1 ∧
    (s.step false).consecutive_idle_steps = 0 ∧
    (s.has_converged = true ↔
      s.min_consecutive_idle_steps_for_convergence ≤ s.consecutive_idle_steps) := by
  have h0 : ¬ (s.max_iterations ≤ s.steps) := not_le.mpr hcap
  refine ⟨rfl, le_max_left _ _, ?_, ?_, by simp [SimState.has_converged]⟩
  · unfold SimState.step
    rw [if_neg h0]
    dsimp only
    rw [if_pos rfl]
    split_ifs <;>
      simp [SimState.adjust_params, SimState.wrap_up_execution, SimState.revise_beliefs]
  · unfold SimState.step
    rw [if_neg h0]
    dsimp only
    rw [if_neg Bool.false_ne_true]

/-- C3: when convergence holds at the end of an idle step below the iteration
cap, a non-final era advances by exactly one (recomputing `beta = total_stake /
k` when the new era overrides `k`) and the run keeps going, while at the final
era the run stops (`running = False`); leaving the `Running` state can only
happen at the final era, hence at most once per era. -/
theorem step_convergence_era_and_termination (s : SimState)
    (hrun : s.running = true)
    (hcap : s.steps < s.max_iterations)
    (hconv : s.min_consecutive_idle_steps_for_convergence
               ≤ s.consecutive_idle_steps + 1) :
    ((s.step true).has_converged = true) ∧
    (s.current_era < s.total_eras - 1 →
      (s.step true).current_era = s.current_era + 1 ∧
      (s.step true).running = true ∧
      (s.current_era + 1 < s.k_schedule.length →
        (s.step true).beta = s.total_stake / (((s.step true).k : ℤ) : Val))) ∧
    (¬ s.current_era < s.total_eras - 1 →
      (s.step true).running = false ∧
      (s.step true).current_era = s.current_era) ∧
    ((s.step true).running = false → ¬ s.current_era < s.total_eras - 1) := by
  have h0 : ¬ (s.max_iterations ≤ s.steps) := not_le.mpr hcap
  unfold SimState.step
  rw [if_neg h0]
  dsimp only
  rw [if_pos rfl]
  split_ifs with hrev hcv hera hcv hera <;>
    simp_all [SimState.has_converged, SimState.revise_beliefs, SimState.adjust_params,
      SimState.wrap_up_execution]

/-! ### Pool-id accounting in `find_operator_moves` (stakeholder.py lines 334-386)
and the rewind of `update_strategy` (lines 92-96, sim.py lines 186-187)

Only the id allocator (`model.id_seq`) is tracked: `get_next_pool_id` (sim.py
lines 182-184) increments it and returns the new value, and
`rewind_pool_id_seq` (lines 186-187) subtracts a step.  The pools a
hypothetical operator move owns are represented by their id lists. -/

/-- The Python exceptions reachable in the embedded code. -/
inductive PyError
  | keyError (k : Nat)
  | attributeError
  | valueError (msg : String)
  | poolNotFound (player_id pool_id : Nat)
deriving Repr, DecidableEq

/-- Python `d[k]` on a dict: the value, or `KeyError`. -/
def dictGet {α : Type} (d : List (Nat × α)) (k : Nat) : Except PyError α :=
  match d.lookup k with
  | some v => Except.ok v
  | none => Except.error (PyError.keyError k)

/-- Python `d[k] = v` for a key already present (entries with other keys are
untouched). -/
def dictSet {α : Type} (d : List (Nat × α)) (k : Nat) (v : α) : List (Nat × α) :=
  d.map (fun e => if e.1 = k then (k, v) else e)

/-- In-place mutation of the value stored under `k` (a Python attribute/method
call on `d[k]`). -/
def dictModify {α : Type} (d : List (Nat × α)) (k : Nat) (f : α → α) : List (Nat × α) :=
  d.map (fun e => if e.1 = k then (e.1, f e.2) else e)

/-- Removal of a key (the effect of a successful `d.pop(k)`). -/
def dictRemove {α : Type} (d : List (Nat × α)) (k : Nat) : List (Nat × α) :=
  d.filter (fun e => e.1 ≠ k)

/-- Python `d.pop(k)`: removes the key, `KeyError` when absent. -/
def dictPop {α : Type} (d : List (Nat × α)) (k : Nat) : Except PyError (List (Nat × α)) :=
  match d.lookup k with
  | some _ => Except.ok (dictRemove d k)
  | none => Except.error (PyError.keyError k)

/-! ### `Stakeholder.calculate_utility` (stakeholder.py lines 100-117)

The numeric sub-computations `calculate_operator_utility_by_strategy`
(line 104) and `calculate_delegator_utility` (line 113) are pure reward
arithmetic built on the missing `logic/helper.py`; they are taken as abstract
total function parameters, since the claim concerns the error behaviour of the
allocation loop of lines 108-116. -/

/-- The allocation loop of `calculate_utility` (stakeholder.py lines 108-116):
iterates `strategy.stake_allocations.items()` accumulating utility.
Non-positive allocations are skipped (lines 109-110) BEFORE the registry
membership test; a positive allocation to an unregistered pool raises
`PoolNotFoundError` (lines 114-116), aborting the loop. -/
def alloc_fold (uid : Nat) (deleg_utility : Pool → Val → Val)
    (pools : List (Nat × Pool)) : List (Nat × Val) → Val → Except PyError Val
  | [], acc => Except.ok acc
  | e :: rest, acc =>
      if e.2 ≤ 0 then alloc_fold uid deleg_utility pools rest acc
      else match pools.lookup e.1 with
        | some pool => alloc_fold uid deleg_utility pools rest (acc + deleg_utility pool e.2)
        | none => Except.error (PyError.poolNotFound uid e.1)

/-- `Stakeholder.calculate_utility` (stakeholder.py lines 100-117): the
operator-utility term of lines 103-104, then the allocation loop. -/
def calculate_utility (uid : Nat) (op_utility : Strategy → Val)
    (deleg_utility : Pool → Val → Val) (pools : List (Nat × Pool))
    (strategy : Strategy) : Except PyError Val :=
  alloc_fold uid deleg_utility pools strategy.stake_allocations
    (if strategy.is_pool_operator then op_utility strategy else 0)

/-- The allocation loop succeeds when every strictly positive allocation
targets a registered pool. -/
theorem alloc_fold_ok (uid : Nat) (deleg_utility : Pool → Val → Val)
    (pools : List (Nat × Pool)) :
    ∀ (l : List (Nat × Val)) (acc : Val),
    (∀ pid a, (pid, a) ∈ l → 0 < a → (pools.lookup pid).isSome) →
    ∃ v, alloc_fold uid deleg_utility pools l acc = Except.ok v := by
  intro l
  induction l with
  | nil => exact fun acc _ => ⟨acc, rfl⟩
  | cons e rest ih =>
    intro acc h
    by_cases he : e.2 ≤ 0
    · rw [alloc_fold, if_pos he]
      exact ih acc (fun pid a hm ha => h pid a (List.mem_cons_of_mem _ hm) ha)
    · have hpos : 0 < e.2 := lt_of_not_le he
      have hsome := h e.1 e.2 (List.mem_cons_self _ _) hpos
      obtain ⟨pool, hpool⟩ := Option.isSome_iff_exists.mp hsome
      rw [alloc_fold, if_neg he, hpool]
      exact ih _ (fun pid a hm ha => h pid a (List.mem_cons_of_mem _ hm) ha)

/-- The allocation loop raises `PoolNotFoundError` when some strictly positive
allocation targets an unregistered pool. -/
theorem alloc_fold_error (uid : Nat) (deleg_utility : Pool → Val → Val)
    (pools : List (Nat × Pool)) :
    ∀ (l : List (Nat × Val)) (acc : Val),
    (∃ pid a, (pid, a) ∈ l ∧ 0 < a ∧ pools.lookup pid = none) →
    ∃ pid, alloc_fold uid deleg_utility pools l acc
        = Except.error (PyError.poolNotFound uid pid) ∧ pools.lookup pid = none := by
  intro l
  induction l with
  | nil => rintro acc ⟨pid, a, hm, _⟩; exact absurd hm (List.not_mem_nil _)
  | cons e rest ih =>
    rintro acc ⟨pid, a, hm, ha, hnone⟩
    by_cases he : e.2 ≤ 0
    · rw [alloc_fold, if_pos he]
      rcases List.mem_cons.mp hm with heq | hmem
      · exfalso
        have h2 : e.2 = a := by rw [← heq]
        rw [h2] at he
        exact absurd ha (not_lt.mpr he)
      · exact ih acc ⟨pid, a, hmem, ha, hnone⟩
    · rcases hl : pools.lookup e.1 with _ | pool
      · rw [alloc_fold, if_neg he, hl]
        exact ⟨e.1, rfl, hl⟩
      · rw [alloc_fold, if_neg he, hl]
        rcases List.mem_cons.mp hm with heq | hmem
        · exfalso
          have h1 : e.1 = pid := by rw [← heq]
          rw [h1, hnone] at hl
          exact Option.noConfusion hl
        · exact ih _ ⟨pid, a, hmem, ha, hnone⟩

/-- The strategy of the C8 counterexample: a delegator allocating amount 0 to
pool id 99. -/
def c8_strategy : Strategy :=
  { is_pool_operator := false, stake_allocations := [(99, 0)], owned_pools := [] }

/-- C8 counterexample: `c8_strategy` maps pool id 99 — absent from the empty
registry — to an allocated amount (0), yet `calculate_utility` does not raise
`PoolNotFoundError`: lines 109-110 of stakeholder.py skip non-positive
allocations before the registry-membership check of line 111, so this bad
reference is silently dropped and utility 0 is returned. -/
theorem calculate_utility_drops_nonpositive_bad_reference :
    (([] : List (Nat × Pool)).lookup 99 = none) ∧
    c8_strategy.stake_allocations.lookup 99 = some 0 ∧
    calculate_utility 7 (fun _ => 0) (fun _ _ => 0) [] c8_strategy = Except.ok 0 := by
  refine ⟨rfl, rfl, ?_⟩
  show alloc_fold 7 (fun _ _ => 0) [] [(99, 0)] 0 = Except.ok 0
  rw [alloc_fold, if_pos (le_refl (0 : ℚ))]
  rfl

/-- C8 amended: for every agent and strategy, if some STRICTLY POSITIVE
allocation targets a pool id absent from the registry then `calculate_utility`
raises `PoolNotFoundError`; and when every strictly positive allocation targets
a registered pool it returns a utility without raising.  (Allocations ≤ 0 are
skipped before the registry check — the only divergence from the claim as
stated.) -/
theorem calculate_utility_error_behaviour (uid : Nat) (op_utility : Strategy → Val)
    (deleg_utility : Pool → Val → Val) (pools : List (Nat × Pool))
    (strategy : Strategy) :
    ((∀ pid a, (pid, a) ∈ strategy.stake_allocations → 0 < a →
        (pools.lookup pid).isSome) →
      ∃ v, calculate_utility uid op_utility deleg_utility pools strategy
          = Except.ok v) ∧
    ((∃ pid a, (pid, a) ∈ strategy.stake_allocations ∧ 0 < a ∧
        pools.lookup pid = none) →
      ∃ pid, calculate_utility uid op_utility deleg_utility pools strategy
          = Except.error (PyError.poolNotFound uid pid) ∧ pools.lookup pid = none) :=
  ⟨fun h => alloc_fold_ok uid deleg_utility pools _ _ h,
   fun h => alloc_fold_error uid deleg_utility pools _ _ h⟩

/-! ### `Stakeholder.find_delegation_move_desirability` (stakeholder.py lines 397-438)

The desirability scores (`pool.calculate_desirability`,
`pool.calculate_myopic_desirability` of the missing `pool.py`) are abstract
function parameters; the claim is about the selection, ordering and allocation
logic, which lives in `src/logic/stakeholder.py`. -/

/-- Inputs of one `find_delegation_move_desirability` call. -/
structure DelegCtx where
  unique_id : Nat
  stake : Val
  isMyopic : Bool
  beta : Val
  pools : List (Nat × Pool)
  stake_allocations : List (Nat × Val)
  desirability : Pool → Val
  myopic_desirability : Pool → Val

/-- Lines 407-411: a deep copy of the registry with the agent's own current
delegations removed from the pools (`update_delegation` with the negated
allocation, for every strictly positive allocation).  A Python `KeyError` on a
stale allocation id is not modelled: entries absent from the registry are
skipped, which does not affect the claim. -/
def adjusted_pools (c : DelegCtx) : List (Nat × Pool) :=
  c.stake_allocations.foldl
    (fun ps e =>
      if 0 < e.2 then dictModify ps e.1 (fun p => p.update_delegation (-e.2) c.unique_id)
      else ps)
    c.pools

/-- The desirability score used for delegation: the myopic variant for myopic
agents (line 416), the non-myopic one otherwise (line 421). -/
def deleg_score (c : DelegCtx) (p : Pool) : Val :=
  if c.isMyopic then c.myopic_desirability p else c.desirability p

/-- Lines 415-424: the dict `{pool.id: (desirability, stake)}` over public
pools not owned by the agent, in registry order. -/
def candidate_entries (c : DelegCtx) : List (Nat × Val × Val) :=
  ((adjusted_pools c).map Prod.snd).filterMap
    (fun p =>
      if p.owner ≠ c.unique_id ∧ p.is_private = false then
        some (p.id, deleg_score c p, p.stake)
      else none)

/-- The sort key of lines 427-428: descending lexicographic order on the pair
(desirability, stake) — `x` may precede `y` iff `y`'s pair is at most `x`'s. -/
def deleg_order (x y : Nat × Val × Val) : Bool :=
  decide (y.2.1 < x.2.1 ∨ (y.2.1 = x.2.1 ∧ y.2.2 ≤ x.2.2))

/-- `sorted(desirabilities_n_stakes.items(), key=operator.itemgetter(1),
reverse=True)` (lines 427-428): a stable sort, descending on the value pair. -/
def sorted_candidates (c : DelegCtx) : List (Nat × Val × Val) :=
  (candidate_entries c).mergeSort deleg_order

/-- The allocation loop of lines 427-436: walk the sorted candidates, stop when
the stake is exhausted, fill each unsaturated pool up to `beta - stake`. -/
def allocate_desc (beta : Val) : List (Nat × Val × Val) → Val → List (Nat × Val)
  | [], _ => []
  | e :: rest, remaining =>
      if remaining = 0 then []
      else if e.2.2 < beta then
        if 0 < min remaining (beta - e.2.2) then
          (e.1, min remaining (beta - e.2.2))
            :: allocate_desc beta rest (remaining - min remaining (beta - e.2.2))
        else allocate_desc beta rest remaining
      else allocate_desc beta rest remaining

/-- `Stakeholder.find_delegation_move_desirability` (lines 397-438): allocate
the given stake (default: the agent's whole stake, lines 404-405) and return a
non-operator Strategy carrying the allocations (line 438). -/
def find_delegation_move_desirability (c : DelegCtx)
    (stake_to_delegate : Option Val) : Strategy :=
  { is_pool_operator := false
    stake_allocations :=
      allocate_desc c.beta (sorted_candidates c) (stake_to_delegate.getD c.stake)
    owned_pools := [] }

/-- Every allocation produced by the loop points at an input entry, is strictly
positive, and is bounded by that entry's room to saturation. -/
theorem allocate_desc_mem (beta : Val) :
    ∀ (l : List (Nat × Val × Val)) (rem : Val) (pid : Nat) (a : Val),
    (pid, a) ∈ allocate_desc beta l rem →
    ∃ d st, (pid, d, st) ∈ l ∧ 0 < a ∧ a ≤ beta - st := by
  intro l
  induction l with
  | nil => intro rem pid a h; exact absurd h (List.not_mem_nil _)
  | cons e rest ih =>
    intro rem pid a h
    rw [allocate_desc] at h
    split_ifs at h with h0 hsat hpos
    · exact absurd h (List.not_mem_nil _)
    · rcases List.mem_cons.mp h with heq | hmem
      · have h1 : pid = e.1 := congrArg Prod.fst heq
        have h2 : a = min rem (beta - e.2.2) := congrArg Prod.snd heq
        refine ⟨e.2.1, e.2.2, ?_, ?_, ?_⟩
        · rw [h1]
          exact List.mem_cons_self _ _
        · rw [h2]; exact hpos
        · rw [h2]; exact min_le_right _ _
      · obtain ⟨d, st, hm, hp, hb⟩ := ih _ _ _ hmem
        exact ⟨d, st, List.mem_cons_of_mem _ hm, hp, hb⟩
    · obtain ⟨d, st, hm, hp, hb⟩ := ih _ _ _ h
      exact ⟨d, st, List.mem_cons_of_mem _ hm, hp, hb⟩
    · obtain ⟨d, st, hm, hp, hb⟩ := ih _ _ _ h
      exact ⟨d, st, List.mem_cons_of_mem _ hm, hp, hb⟩

/-- The loop never allocates more in total than the stake it was given. -/
theorem allocate_desc_sum_le (beta : Val) :
    ∀ (l : List (Nat × Val × Val)) (rem : Val), 0 ≤ rem →
    ((allocate_desc beta l rem).map Prod.snd).sum ≤ rem := by
  intro l
  induction l with
  | nil => intro rem h; simpa [allocate_desc] using h
  | cons e rest ih =>
    intro rem hrem
    rw [allocate_desc]
    split_ifs with h0 hsat hpos
    · simpa using hrem
    · have hle : min rem (beta - e.2.2) ≤ rem := min_le_left _ _
      have hrec := ih (rem - min rem (beta - e.2.2)) (by linarith)
      simp only [List.map_cons, List.sum_cons]
      linarith
    · exact ih rem hrem
    · exact ih rem hrem

/-- Every candidate entry comes from a public, non-self-owned adjusted pool,
with the pool's id and (adjusted) stake. -/
theorem candidate_entries_spec (c : DelegCtx) (x : Nat × Val × Val)
    (hx : x ∈ candidate_entries c) :
    ∃ p, p ∈ (adjusted_pools c).map Prod.snd ∧ p.id = x.1 ∧ p.stake = x.2.2 ∧
      p.owner ≠ c.unique_id ∧ p.is_private = false := by
  unfold candidate_entries at hx
  rw [List.mem_filterMap] at hx
  obtain ⟨p, hp, hpx⟩ := hx
  split_ifs at hpx with hcond
  have h := Option.some.inj hpx
  refine ⟨p, hp, ?_, ?_, hcond.1, hcond.2⟩
  · rw [← h]
  · rw [← h]

/-- The sorted candidate list is sorted in descending lexicographic order of
(desirability, stake). -/
theorem sorted_candidates_sorted (c : DelegCtx) :
    (sorted_candidates c).Pairwise (fun x y => deleg_order x y = true) := by
  apply List.sorted_mergeSort
  · intro a b x hab hbx
    simp only [deleg_order, decide_eq_true_eq] at *
    rcases hab with h1 | ⟨h1, h2⟩ <;> rcases hbx with h3 | ⟨h3, h4⟩
    · exact Or.inl (lt_trans h3 h1)
    · exact Or.inl (h3 ▸ h1)
    · exact Or.inl (h1 ▸ h3)
    · exact Or.inr ⟨h3.trans h1, h4.trans h2⟩
  · intro a b
    simp only [deleg_order, Bool.or_eq_true, decide_eq_true_eq]
    rcases lt_trichotomy a.2.1 b.2.1 with h | h | h
    · exact Or.inr (Or.inl h)
    · rcases le_total a.2.2 b.2.2 with h2 | h2
      · exact Or.inr (Or.inr ⟨h.symm ▸ rfl, h2⟩)
      · exact Or.inl (Or.inr ⟨h.symm, h2⟩)
    · exact Or.inl (Or.inl h)

/-- C4: `find_delegation_move_desirability` returns a non-operator Strategy
whose allocations (a) target only public pools not owned by the agent, among
the pools with the agent's own delegations removed, (b) are strictly positive
and at most the target pool's room to saturation `beta - stake`, (c) sum to at
most the stake to delegate; and the candidates are processed in descending
lexicographic order of (desirability, current stake). -/
theorem find_delegation_move_desirability_spec (c : DelegCtx)
    (hstake : 0 ≤ c.stake) :
    (find_delegation_move_desirability c none).is_pool_operator = false ∧
    (∀ pid a, (pid, a) ∈ (find_delegation_move_desirability c none).stake_allocations →
      ∃ p, p ∈ (adjusted_pools c).map Prod.snd ∧ p.id = pid ∧
        p.owner ≠ c.unique_id ∧ p.is_private = false ∧
        0 < a ∧ a ≤ c.beta - p.stake) ∧
    (((find_delegation_move_desirability c none).stake_allocations.map Prod.snd).sum
        ≤ c.stake) ∧
    (sorted_candidates c).Pairwise (fun x y => deleg_order x y = true) := by
  refine ⟨rfl, ?_, ?_, sorted_candidates_sorted c⟩
  · intro pid a hmem
    have hmem' : (pid, a) ∈ allocate_desc c.beta (sorted_candidates c) c.stake := hmem
    obtain ⟨d, st, hm, hp, hb⟩ := allocate_desc_mem c.beta _ _ _ _ hmem'
    have hm2 : (pid, d, st) ∈ candidate_entries c := by
      have hm3 : (pid, d, st) ∈ (candidate_entries c).mergeSort deleg_order := hm
      exact List.mem_mergeSort.mp hm3
    obtain ⟨p, hpmem, hpid, hpstake, howner, hpriv⟩ :=
      candidate_entries_spec c _ hm2
    refine ⟨p, hpmem, hpid, howner, hpriv, hp, ?_⟩
    rw [hpstake]
    exact hb
  · exact allocate_desc_sum_le c.beta _ _ hstake

/-! ### `Stakeholder.close_pool` / `remove_delegations` (stakeholder.py lines 501-523)

The state these operations touch: the global pool registry (`model.pools`),
the players with their committed strategy's allocation map and optionally a
staged `new_strategy` allocation map (`get_players_dict`, line 514), and the
activation-order string (line 520). -/

/-- The slice of a `Stakeholder` that `remove_delegations` reads and writes:
the committed strategy's `stake_allocations` and, when a move is staged, the
pending `new_strategy.stake_allocations`. -/
structure PlayerSt where
  stake_allocations : List (Nat × Val)
  new_allocations : Option (List (Nat × Val))
deriving Repr, DecidableEq

/-- The model state seen by `close_pool` / `remove_delegations`. -/
structure SystemSt where
  pools : List (Nat × Pool)
  players : List (Nat × PlayerSt)
  player_activation_order : String
deriving Repr, DecidableEq

/-- The loop of `remove_delegations` (stakeholder.py lines 515-523) over the
snapshot `list(pool.delegators.keys())`: per delegator, undelegate the stake
held in the pool (`update_delegation` with the negated amount, line 517), drop
the pool from the player's committed allocations (`pop`, line 519 — a
`KeyError` when absent), and under simultaneous activation also from the
staged allocations when a move is pending (lines 520-523).  Python binds
`pool` once (line 513) and mutates it in place; the embedding reads the
registry entry each iteration, which is the same object. -/
def remove_delegations_loop (pool_id : Nat) :
    List Nat → SystemSt → Except PyError SystemSt
  | [], st => Except.ok st
  | player_id :: rest, st =>
      match st.pools.lookup pool_id with
      | none => Except.error (PyError.keyError pool_id)
      | some pool =>
        match pool.delegators.lookup player_id with
        | none => Except.error (PyError.keyError player_id)
        | some amt =>
          match st.players.lookup player_id with
          | none => Except.error (PyError.keyError player_id)
          | some player =>
            match player.stake_allocations.lookup pool_id with
            | none => Except.error (PyError.keyError pool_id)
            | some _ =>
              let pools1 := dictModify st.pools pool_id
                (fun p => p.update_delegation (-amt) player_id)
              let player1 : PlayerSt := { player with
                stake_allocations := dictRemove player.stake_allocations pool_id }
              if st.player_activation_order = "Simultaneous" then
                match player1.new_allocations with
                | some na =>
                  match na.lookup pool_id with
                  | none => Except.error (PyError.keyError pool_id)
                  | some _ =>
                    let player2 : PlayerSt :=
                      { player1 with new_allocations := some (dictRemove na pool_id) }
                    remove_delegations_loop pool_id rest
                      { st with pools := pools1
                                players := dictSet st.players player_id player2 }
                | none =>
                  remove_delegations_loop pool_id rest
                    { st with pools := pools1
                              players := dictSet st.players player_id player1 }
              else
                remove_delegations_loop pool_id rest
                  { st with pools := pools1
                            players := dictSet st.players player_id player1 }

/-- `Stakeholder.remove_delegations` (stakeholder.py lines 512-523). -/
def remove_delegations (st : SystemSt) (pool_id : Nat) : Except PyError SystemSt :=
  match st.pools.lookup pool_id with
  | none => Except.error (PyError.keyError pool_id)
  | some pool => remove_delegations_loop pool_id (pool.delegators.map Prod.fst) st

/-- Attribute access `.owner` on a value of class `Pool` is total: it never
raises `AttributeError`. -/
def attr_owner (p : Pool) : Except PyError Nat := Except.ok p.owner

/-- `Stakeholder.close_pool` (stakeholder.py lines 501-510).  The dict
subscript `pools[pool_id]` raises `KeyError` for an absent id (not
`AttributeError`); the `except AttributeError` handler of lines 506-507 turns
only an `AttributeError` into `ValueError("Given pool id is not valid.")`, so
it is modelled faithfully around `attr_owner`. -/
def close_pool (st : SystemSt) (self_id pool_id : Nat) : Except PyError SystemSt :=
  match st.pools.lookup pool_id with
  | none => Except.error (PyError.keyError pool_id)
  | some pool =>
    match attr_owner pool with
    | Except.error PyError.attributeError =>
        Except.error (PyError.valueError "Given pool id is not valid.")
    | Except.error e => Except.error e
    | Except.ok owner =>
      if owner ≠ self_id then
        Except.error (PyError.valueError
          "Player tried to close pool that belongs to another player.")
      else
        match remove_delegations st pool_id with
        | Except.error e => Except.error e
        | Except.ok st1 =>
          match dictPop st1.pools pool_id with
          | Except.error e => Except.error e
          | Except.ok pools1 => Except.ok { st1 with pools := pools1 }

/-! Association-list lemmas for the dict operations. -/

theorem beq_false_of_ne_nat {a b : Nat} (h : ¬ a = b) : (a == b) = false := by
  rcases hq : (a == b) with _ | _
  · rfl
  · exact absurd ((beq_iff_eq (a := a) (b := b)).mp hq) h

theorem lookup_dictModify_self {α : Type} (d : List (Nat × α)) (k : Nat)
    (f : α → α) (v : α) (h : d.lookup k = some v) :
    (dictModify d k f).lookup k = some (f v) := by
  unfold dictModify
  induction d with
  | nil => simp at h
  | cons e rest ih =>
    obtain ⟨ek, ev⟩ := e
    by_cases hek : ek = k
    · have hbe : (k == ek) = true := by
        rw [hek]
        exact beq_self_eq_true k
      simp only [List.lookup_cons, hbe] at h
      simp only [List.map_cons, if_pos hek, List.lookup_cons, hbe]
      rw [Option.some.inj h]
    · have hbe : (k == ek) = false := beq_false_of_ne_nat (fun hh => hek hh.symm)
      simp only [List.lookup_cons, hbe] at h
      simp only [List.map_cons, if_neg hek, List.lookup_cons, hbe]
      exact ih h

theorem lookup_dictSet_self {α : Type} (d : List (Nat × α)) (k : Nat) (v : α)
    (h : (d.lookup k).isSome = true) :
    (dictSet d k v).lookup k = some v := by
  unfold dictSet
  induction d with
  | nil => simp at h
  | cons e rest ih =>
    obtain ⟨ek, ev⟩ := e
    by_cases hek : ek = k
    · simp only [List.map_cons, if_pos hek, List.lookup_cons_self]
    · have hbe : (k == ek) = false := beq_false_of_ne_nat (fun hh => hek hh.symm)
      simp only [List.lookup_cons, hbe] at h
      simp only [List.map_cons, if_neg hek, List.lookup_cons, hbe]
      exact ih h

theorem lookup_dictSet_ne {α : Type} (d : List (Nat × α)) (k kq : Nat) (v : α)
    (h : kq ≠ k) : (dictSet d k v).lookup kq = d.lookup kq := by
  unfold dictSet
  induction d with
  | nil => rfl
  | cons e rest ih =>
    obtain ⟨ek, ev⟩ := e
    by_cases hek : ek = k
    · have hbe : (kq == ek) = false := by
        rw [hek]
        exact beq_false_of_ne_nat h
      have hbk : (kq == k) = false := beq_false_of_ne_nat h
      simp only [List.map_cons, if_pos hek, List.lookup_cons, hbe, hbk]
      exact ih
    · simp only [List.map_cons, if_neg hek, List.lookup_cons]
      rcases hbe : (kq == ek) with _ | _
      · simp only [hbe]
        exact ih
      · simp only [hbe]

theorem lookup_dictModify_ne {α : Type} (d : List (Nat × α)) (k kq : Nat)
    (f : α → α) (h : kq ≠ k) : (dictModify d k f).lookup kq = d.lookup kq := by
  unfold dictModify
  induction d with
  | nil => rfl
  | cons e rest ih =>
    obtain ⟨ek, ev⟩ := e
    by_cases hek : ek = k
    · have hbe : (kq == ek) = false := by
        rw [hek]
        exact beq_false_of_ne_nat h
      simp only [List.map_cons, if_pos hek, List.lookup_cons, hbe]
      exact ih
    · simp only [List.map_cons, if_neg hek, List.lookup_cons]
      rcases hbe : (kq == ek) with _ | _
      · simp only [hbe]
        exact ih
      · simp only [hbe]

theorem lookup_dictRemove_self {α : Type} (d : List (Nat × α)) (k : Nat) :
    (dictRemove d k).lookup k = none := by
  unfold dictRemove
  induction d with
  | nil => rfl
  | cons e rest ih =>
    obtain ⟨ek, ev⟩ := e
    by_cases hek : ek = k
    · simp only [List.filter_cons]
      rw [if_neg (by simp [hek])]
      exact ih
    · have hbe : (k == ek) = false := beq_false_of_ne_nat (fun hh => hek hh.symm)
      simp only [List.filter_cons]
      rw [if_pos (by simp [hek])]
      rw [List.lookup_cons, hbe]
      exact ih

theorem mem_dictSet {α : Type} (d : List (Nat × α)) (k : Nat) (v : α)
    (e : Nat × α) (h : e ∈ dictSet d k v) : e = (k, v) ∨ (e ∈ d ∧ e.1 ≠ k) := by
  unfold dictSet at h
  rw [List.mem_map] at h
  obtain ⟨x, hx, hxe⟩ := h
  by_cases hxk : x.1 = k
  · rw [if_pos hxk] at hxe
    exact Or.inl hxe.symm
  · rw [if_neg hxk] at hxe
    right
    rw [← hxe]
    exact ⟨hx, hxk⟩

/-- Undelegating exactly the recorded amount removes the delegator's entry
(`update_delegation` with the negated amount; the entry hits zero and is
dropped). -/
theorem update_delegation_cancel (p : Pool) (d : Nat) (amt : Val)
    (h : p.delegators.lookup d = some amt) :
    (p.update_delegation (-amt) d).delegators
      = p.delegators.filter (fun e => e.1 ≠ d) := by
  unfold Pool.update_delegation
  simp only [h, Option.getD_some]
  rw [if_pos (by ring)]

/-- Keys of an association list filtered on a key predicate. -/
theorem keys_filter_ne (l : List (Nat × Val)) (d : Nat) :
    (l.filter (fun e => e.1 ≠ d)).map Prod.fst
      = (l.map Prod.fst).filter (fun x => x ≠ d) := by
  induction l with
  | nil => rfl
  | cons e rest ih =>
    by_cases hed : e.1 = d
    · simp only [List.filter_cons, List.map_cons]
      rw [if_neg (by simp [hed]), if_neg (by simp [hed])]
      exact ih
    · simp only [List.filter_cons, List.map_cons]
      rw [if_pos (by simp [hed]), if_pos (by simp [hed])]
      rw [List.map_cons, ih]

/-- The invariant proof for the `remove_delegations` loop: when the registry
holds the pool, the pending delegator list is exactly the pool's delegator
keys (no duplicates), every pending delegator is a player whose committed
allocations (and staged allocations under simultaneous activation, when a move
is pending) reference the pool, and conversely every player still referencing
the pool is a pending delegator — then the loop succeeds, empties the pool's
delegator map, and leaves no committed allocation referencing the pool. -/
theorem remove_delegations_loop_spec (pool_id : Nat) :
    ∀ (L : List Nat) (st : SystemSt) (q : Pool),
    st.pools.lookup pool_id = some q →
    q.delegators.map Prod.fst = L →
    L.Nodup →
    (∀ d ∈ L, ∃ pl, st.players.lookup d = some pl ∧
        (pl.stake_allocations.lookup pool_id).isSome = true ∧
        (st.player_activation_order = "Simultaneous" →
          ∀ na, pl.new_allocations = some na → (na.lookup pool_id).isSome = true)) →
    (∀ e ∈ st.players,
        ((e : Nat × PlayerSt).2.stake_allocations.lookup pool_id).isSome = true →
        e.1 ∈ L) →
    ∃ st' q', remove_delegations_loop pool_id L st = Except.ok st' ∧
      st'.pools.lookup pool_id = some q' ∧ q'.delegators = [] ∧
      (∀ e ∈ st'.players,
        ((e : Nat × PlayerSt).2.stake_allocations.lookup pool_id) = none) ∧
      st'.player_activation_order = st.player_activation_order := by
  intro L
  induction L with
  | nil =>
    intro st q hq hkeys _ _ hinv
    refine ⟨st, q, rfl, hq, ?_, ?_, rfl⟩
    · exact List.map_eq_nil_iff.mp hkeys
    · intro e he
      rcases hs : ((e : Nat × PlayerSt).2.stake_allocations.lookup pool_id) with _ | x
      · rfl
      · exact absurd (hinv e he (by rw [hs]; rfl)) (List.not_mem_nil _)
  | cons d rest ih =>
    intro st q hq hkeys hnd hplayers hinv
    have hdnotin : d ∉ rest := (List.nodup_cons.mp hnd).1
    have hndrest : rest.Nodup := (List.nodup_cons.mp hnd).2
    obtain ⟨pl, hpl_lookup, hpl_some, hpl_sim⟩ :=
      hplayers d (List.mem_cons_self _ _)
    have hdmem : d ∈ q.delegators.map Prod.fst := by
      rw [hkeys]
      exact List.mem_cons_self _ _
    have hamt_some : (q.delegators.lookup d).isSome = true := by
      rw [List.lookup_isSome_iff]
      rw [List.mem_map] at hdmem
      obtain ⟨p, hp, hpd⟩ := hdmem
      refine ⟨p, hp, ?_⟩
      rw [hpd]
      exact beq_self_eq_true d
    obtain ⟨amt, hamt⟩ := Option.isSome_iff_exists.mp hamt_some
    obtain ⟨x, hx⟩ := Option.isSome_iff_exists.mp hpl_some
    -- the state after processing delegator d, for any resulting player record
    -- whose committed allocations have the pool popped
    have key : ∀ P : PlayerSt,
        P.stake_allocations = dictRemove pl.stake_allocations pool_id →
        ∃ st' q', remove_delegations_loop pool_id rest
            { st with
              pools := dictModify st.pools pool_id
                (fun p => p.update_delegation (-amt) d)
              players := dictSet st.players d P } = Except.ok st' ∧
          st'.pools.lookup pool_id = some q' ∧ q'.delegators = [] ∧
          (∀ e ∈ st'.players,
            ((e : Nat × PlayerSt).2.stake_allocations.lookup pool_id) = none) ∧
          st'.player_activation_order = st.player_activation_order := by
      intro P hP
      have pre1 : (dictModify st.pools pool_id
          (fun p => p.update_delegation (-amt) d)).lookup pool_id
            = some (q.update_delegation (-amt) d) :=
        lookup_dictModify_self _ _ _ _ hq
      have pre2 : (q.update_delegation (-amt) d).delegators.map Prod.fst = rest := by
        rw [update_delegation_cancel q d amt hamt, keys_filter_ne, hkeys,
          List.filter_cons]
        rw [if_neg (by simp)]
        apply List.filter_eq_self.mpr
        intro x hxr
        simp only [decide_eq_true_eq]
        intro hxd
        rw [hxd] at hxr
        exact hdnotin hxr
      have pre4 : ∀ d' ∈ rest, ∃ pl',
          (dictSet st.players d P).lookup d' = some pl' ∧
          (pl'.stake_allocations.lookup pool_id).isSome = true ∧
          (st.player_activation_order = "Simultaneous" →
            ∀ na, pl'.new_allocations = some na →
              (na.lookup pool_id).isSome = true) := by
        intro d' hd'
        have hne : d' ≠ d := by
          intro hh
          rw [hh] at hd'
          exact hdnotin hd'
        obtain ⟨pl', h1, h2, h3⟩ := hplayers d' (List.mem_cons_of_mem _ hd')
        refine ⟨pl', ?_, h2, h3⟩
        rw [lookup_dictSet_ne _ _ _ _ hne]
        exact h1
      have pre5 : ∀ e ∈ dictSet st.players d P,
          ((e : Nat × PlayerSt).2.stake_allocations.lookup pool_id).isSome = true →
          e.1 ∈ rest := by
        intro e he hsome
        rcases mem_dictSet _ _ _ _ he with heq | ⟨hmem, hne⟩
        · exfalso
          rw [heq] at hsome
          simp only [hP] at hsome
          rw [lookup_dictRemove_self] at hsome
          simp at hsome
        · have := hinv e hmem hsome
          rcases List.mem_cons.mp this with h1 | h1
          · exact absurd h1 hne
          · exact h1
      obtain ⟨st', q', ha, hb, hc, hd2, he2⟩ :=
        ih { st with
              pools := dictModify st.pools pool_id
                (fun p => p.update_delegation (-amt) d)
              players := dictSet st.players d P }
          (q.update_delegation (-amt) d) pre1 pre2 hndrest pre4 pre5
      exact ⟨st', q', ha, hb, hc, hd2, he2⟩
    rw [remove_delegations_loop]
    simp only [hq, hamt, hpl_lookup, hx]
    by_cases hord : st.player_activation_order = "Simultaneous"
    · rw [if_pos hord]
      rcases hna : pl.new_allocations with _ | na
      · simp only [hna]
        exact key _ rfl
      · have hna_some := hpl_sim hord na hna
        obtain ⟨y, hy⟩ := Option.isSome_iff_exists.mp hna_some
        simp only [hna, hy]
        exact key _ rfl
    · rw [if_neg hord]
      exact key _ rfl

/-- Any error escaping the `remove_delegations` loop is a `KeyError`: the loop
never produces a `ValueError`. -/
theorem remove_delegations_loop_no_valueerror (pool_id : Nat) (msg : String) :
    ∀ (L : List Nat) (st : SystemSt),
    remove_delegations_loop pool_id L st ≠ Except.error (PyError.valueError msg) := by
  intro L
  induction L with
  | nil =>
    intro st h
    simp [remove_delegations_loop] at h
  | cons d rest ih =>
    intro st h
    rw [remove_delegations_loop] at h
    rcases h1 : st.pools.lookup pool_id with _ | pool
    · simp [h1] at h
    · rcases h2 : pool.delegators.lookup d with _ | amt
      · simp [h1, h2] at h
      · rcases h3 : st.players.lookup d with _ | pl
        · simp [h1, h2, h3] at h
        · rcases h4 : pl.stake_allocations.lookup pool_id with _ | a
          · simp [h1, h2, h3, h4] at h
          · by_cases hord : st.player_activation_order = "Simultaneous"
            · rcases h5 : pl.new_allocations with _ | na
              · simp only [h1, h2, h3, h4, h5, if_pos hord] at h
                exact ih _ h
              · rcases h6 : na.lookup pool_id with _ | y
                · simp [h1, h2, h3, h4, h5, h6, if_pos hord] at h
                · simp only [h1, h2, h3, h4, h5, h6, if_pos hord] at h
                  exact ih _ h
            · simp only [h1, h2, h3, h4, if_neg hord] at h
              exact ih _ h

/-- `remove_delegations` never raises a `ValueError`. -/
theorem remove_delegations_no_valueerror (st : SystemSt) (pool_id : Nat)
    (msg : String) :
    remove_delegations st pool_id ≠ Except.error (PyError.valueError msg) := by
  unfold remove_delegations
  rcases h1 : st.pools.lookup pool_id with _ | pool
  · simp
  · exact remove_delegations_loop_no_valueerror pool_id msg _ st

/-- C10: for a pool id absent from the registry, `close_pool` fails with the
`KeyError` raised by the dict subscript `pools[pool_id]`; and no input makes it
produce `ValueError("Given pool id is not valid.")` — the `except
AttributeError` validation branch of stakeholder.py lines 506-507 is
unreachable, since the failing subscript raises `KeyError` and attribute
access `.owner` on a Pool value cannot raise `AttributeError`. -/
theorem close_pool_keyerror_and_dead_branch (st : SystemSt) (self_id pool_id : Nat) :
    (st.pools.lookup pool_id = none →
      close_pool st self_id pool_id = Except.error (PyError.keyError pool_id)) ∧
    close_pool st self_id pool_id
      ≠ Except.error (PyError.valueError "Given pool id is not valid.") := by
  constructor
  · intro h
    unfold close_pool
    rw [h]
  · intro h
    unfold close_pool at h
    rcases h1 : st.pools.lookup pool_id with _ | pool
    · simp [h1] at h
    · simp only [h1, attr_owner] at h
      split_ifs at h with h2
      · simp only [Except.error.injEq, PyError.valueError.injEq] at h
        exact absurd h (by decide)
      · rcases h3 : remove_delegations st pool_id with e | st1
        · simp only [h3, Except.error.injEq] at h
          rw [h] at h3
          exact remove_delegations_no_valueerror st pool_id _ h3
        · simp only [h3, dictPop] at h
          rcases h5 : st1.pools.lookup pool_id with _ | qq
          · simp [h5] at h
          · simp [h5] at h

/-- C6: `close_pool` on a registered pool not owned by the calling agent fails
with the ownership `ValueError` (a failing call produces no new state, so the
registry is unchanged); on an owned pool it first empties the pool's delegator
map — popping the pool id from every delegator's committed (and, under
simultaneous activation, staged) allocations — and then removes the pool from
the registry, so afterwards the pool id is gone and no player's committed
`stake_allocations` still contains it.  The hypotheses are the reachable-state
consistency between the pool's delegator map and the players' allocation
maps. -/
theorem close_pool_ownership_and_cleanup (st : SystemSt) (self_id pool_id : Nat)
    (q : Pool) (hq : st.pools.lookup pool_id = some q)
    (hnd : (q.delegators.map Prod.fst).Nodup)
    (hplayers : ∀ d ∈ q.delegators.map Prod.fst, ∃ pl,
        st.players.lookup d = some pl ∧
        (pl.stake_allocations.lookup pool_id).isSome = true ∧
        (st.player_activation_order = "Simultaneous" →
          ∀ na, pl.new_allocations = some na → (na.lookup pool_id).isSome = true))
    (hinv : ∀ e ∈ st.players,
        ((e : Nat × PlayerSt).2.stake_allocations.lookup pool_id).isSome = true →
        e.1 ∈ q.delegators.map Prod.fst) :
    (q.owner ≠ self_id →
      close_pool st self_id pool_id = Except.error (PyError.valueError
        "Player tried to close pool that belongs to another player.")) ∧
    (q.owner = self_id →
      ∃ st1 q' st', remove_delegations st pool_id = Except.ok st1 ∧
        st1.pools.lookup pool_id = some q' ∧ q'.delegators = [] ∧
        close_pool st self_id pool_id = Except.ok st' ∧
        st'.pools.lookup pool_id = none ∧
        (∀ e ∈ st'.players,
          ((e : Nat × PlayerSt).2.stake_allocations.lookup pool_id) = none)) := by
  constructor
  · intro howner
    unfold close_pool
    simp only [hq, attr_owner]
    rw [if_pos howner]
  · intro howner
    obtain ⟨st1, q', hloop, hq', hdeleg, hcleans, horder⟩ :=
      remove_delegations_loop_spec pool_id (q.delegators.map Prod.fst) st q
        hq rfl hnd hplayers hinv
    have hrd : remove_delegations st pool_id = Except.ok st1 := by
      unfold remove_delegations
      rw [hq]
      exact hloop
    have hpop : dictPop st1.pools pool_id
        = Except.ok (dictRemove st1.pools pool_id) := by
      unfold dictPop
      rw [hq']
    refine ⟨st1, q', { st1 with pools := dictRemove st1.pools pool_id },
      hrd, hq', hdeleg, ?_, ?_, ?_⟩
    · unfold close_pool
      simp only [hq, attr_owner]
      rw [if_neg (by simp [howner])]
      simp only [hrd, hpop]
    · exact lookup_dictRemove_self _ _
    · exact hcleans

/-! ### Concrete witnesses -/

/-- An empty delegator strategy, for concrete decision contexts. -/
def w1_strategy : Strategy :=
  { is_pool_operator := false, stake_allocations := [], owned_pools := [] }

/-- A concrete decision context: both thresholds 0, current and delegator
utility both 1, no operator branch. -/
def w1_ctx : DecideCtx :=
  { relative_utility_threshold := 0, absolute_utility_threshold := 0,
    current_utility := 1, current_strategy := w1_strategy,
    cooldown_is_zero := true, delegator_utility := 1,
    delegator_strategy := w1_strategy, considers_operator := false,
    operator_options := [] }

/-- Witness for C1: at `w1_ctx` the delegator alternative exactly ties the
baseline, so no strategy is staged. -/
theorem update_strategy_inertia_witness :
    update_strategy_choice w1_ctx = (MoveKey.current, none) :=
  (update_strategy_inertia_and_tie_order w1_ctx).2.1
    (fun _ => by norm_num [DecideCtx.inflated, w1_ctx])
    (fun hop => by simp [w1_ctx] at hop)

/-- A simulation state whose era-override schedule assigns `k = 4` to era 1. -/
def w2_state : SimState :=
  { total_stake := 1, k := 2, beta := 1/2, perceived_active_stake := 1,
    pools := [], steps := 3, max_iterations := 100, revision_frequency := 10,
    consecutive_idle_steps := 0,
    min_consecutive_idle_steps_for_convergence := 6, current_era := 0,
    total_eras := 2, k_schedule := [2, 4], other_schedule_lens := [],
    running := true, current_step_idle := true, equilibrium_steps := [],
    pivot_steps := [] }

/-- Witness for the amended C2 at `w2_state`: `adjust_params` with a k-override
re-establishes `beta = total_stake / k`. -/
theorem beta_k_equation_witness :
    (w2_state.adjust_params).beta
      = (w2_state.adjust_params).total_stake / ((w2_state.adjust_params).k : Val) :=
  (beta_k_equation_at_k_updates 1 2 1 1 10 1 [] [] w2_state
    (by simp [w2_state])).2.1

/-- A converging final-era state: threshold 1, one era in total. -/
def w3_state : SimState :=
  { total_stake := 1, k := 2, beta := 1/2, perceived_active_stake := 1,
    pools := [], steps := 3, max_iterations := 100, revision_frequency := 10,
    consecutive_idle_steps := 0,
    min_consecutive_idle_steps_for_convergence := 1, current_era := 0,
    total_eras := 1, k_schedule := [], other_schedule_lens := [],
    running := true, current_step_idle := true, equilibrium_steps := [],
    pivot_steps := [] }

/-- Witness for C3 at `w3_state`: an idle step reaching the threshold at the
final era stops the run without advancing the era. -/
theorem step_convergence_witness :
    (w3_state.step true).running = false ∧
    (w3_state.step true).current_era = w3_state.current_era :=
  (step_convergence_era_and_termination w3_state rfl (by simp [w3_state])
    (by simp [w3_state])).2.2.1 (by simp [w3_state])

/-- Witness for C7 at `w3_state`: the idle counter increments on an idle
round. -/
theorem convergence_threshold_witness :
    (w3_state.step true).consecutive_idle_steps
      = w3_state.consecutive_idle_steps + 1 :=
  (convergence_threshold_and_idle_counter 1 2 1 1 10 1 [] [] w3_state
    (by simp [w3_state])).2.2.1

/-- A concrete public pool of stake 1/4 for the delegation-move witness. -/
def w4_pool : Pool :=
  { id := 1, owner := 5, cost := 0, pledge := 1/4, margin := 0, stake := 1/4,
    is_private := false, delegators := [] }

/-- A concrete delegation context: one public pool, agent stake 1. -/
def w4_ctx : DelegCtx :=
  { unique_id := 0, stake := 1, isMyopic := false, beta := 1/2,
    pools := [(1, w4_pool)], stake_allocations := [],
    desirability := fun p => p.stake, myopic_desirability := fun p => p.stake }

/-- Witness for C4 at `w4_ctx`: the produced allocations never exceed the
agent's stake. -/
theorem find_delegation_move_witness :
    ((find_delegation_move_desirability w4_ctx none).stake_allocations.map
        Prod.snd).sum ≤ w4_ctx.stake :=
  (find_delegation_move_desirability_spec w4_ctx (by norm_num [w4_ctx])).2.2.1

/-- A pool owned by agent 0 with one delegator (agent 2, amount 1/2). -/
def w6_pool : Pool :=
  { id := 1, owner := 0, cost := 0, pledge := 1/4, margin := 0, stake := 3/4,
    is_private := false, delegators := [(2, 1/2)] }

/-- Player 2's state: a committed delegation of 1/2 to pool 1, no staged
move. -/
def w6_player : PlayerSt :=
  { stake_allocations := [(1, 1/2)], new_allocations := none }

/-- A consistent model state: the registry holds `w6_pool` under id 1 and
player 2's committed strategy delegates 1/2 to it. -/
def w6_state : SystemSt :=
  { pools := [(1, w6_pool)],
    players := [(2, w6_player)],
    player_activation_order := "Random" }

/-- Witness for C6 at `w6_state`: agent 0 closes its pool 1; the delegator map
is emptied, the pool leaves the registry, and no committed allocation still
references id 1. -/
theorem close_pool_cleanup_witness :
    ∃ st1 q' st', remove_delegations w6_state 1 = Except.ok st1 ∧
      st1.pools.lookup 1 = some q' ∧ q'.delegators = [] ∧
      close_pool w6_state 0 1 = Except.ok st' ∧
      st'.pools.lookup 1 = none ∧
      (∀ e ∈ st'.players,
        ((e : Nat × PlayerSt).2.stake_allocations.lookup 1) = none) :=
  (close_pool_ownership_and_cleanup w6_state 0 1 w6_pool rfl (by decide)
    (fun d hd => by
      have hd2 : d = 2 := by
        simpa [w6_pool] using hd
      subst hd2
      exact ⟨_, rfl, rfl, fun hsim => absurd hsim (by decide)⟩)
    (fun e he _ => by
      have he2 : e = (2, w6_player) := by
        simpa [w6_state] using he
      rw [he2]
      decide)).2 rfl

/-- Witness for C10 at `w6_state`: pool id 5 is unregistered, so `close_pool`
raises the dict `KeyError` and never the dead-branch `ValueError`. -/
theorem close_pool_keyerror_witness :
    close_pool w6_state 0 5 = Except.error (PyError.keyError 5) ∧
    close_pool w6_state 0 5
      ≠ Except.error (PyError.valueError "Given pool id is not valid.") :=
  ⟨(close_pool_keyerror_and_dead_branch w6_state 0 5).1 rfl,
   (close_pool_keyerror_and_dead_branch w6_state 0 5).2⟩

/-- Witness for the amended C8: with one registered pool and a positive
allocation to it, `calculate_utility` returns a utility. -/
theorem calculate_utility_ok_witness :
    ∃ v, calculate_utility 0 (fun _ => 0) (fun _ _ => 0) [(1, w4_pool)]
        { is_pool_operator := false, stake_allocations := [(1, (1:Val)/2)],
          owned_pools := [] } = Except.ok v :=
  (calculate_utility_error_behaviour 0 (fun _ => 0) (fun _ _ => 0)
      [(1, w4_pool)] _).1
    (fun pid a hm _ => by
      have h2 : pid = 1 := by
        have := List.mem_singleton.mp hm
        exact congrArg Prod.fst this
      subst h2
      rfl)

end PoolSim
